import Mathlib

/-!
# Shoot ConfigMap controller

A shallow embedding of `pkg/controllermanager/controller/shoot/configmap_control.go`:
the two informer callbacks `configMapAdd` / `configMapUpdate` and the reconciler
`configMapReconciler.Reconcile`.

The collaborators the Go file imports (the work queue, `cache.MetaNamespaceKeyFunc`,
the garden client, the shoot lister and `kubernetes.SubmitEmptyPatch`) are not part of
the file; they are taken as parameters, so a theorem holds for every behaviour of
theirs unless it names the one it needs.  The two library functions
`Semantic.DeepEqual` and `cache.MetaNamespaceKeyFunc` are also given as definitions.
Log statements have no effect on the control flow and are left out.
-/

namespace ConfigMapControl

/-! ## Data model -/

/-- A Go `error` value, as far as the controller looks at it: `apierrors.IsNotFound`
    classifies it, the message is carried along. -/
structure Error where
  IsNotFound : Bool
  Message : String
deriving DecidableEq, Repr

/-- Go `fmt.Errorf(msg + ": %w", err)`: the wrapped error keeps its classification. -/
def Errorf (msg : String) (err : Error) : Error :=
  ⟨err.IsNotFound, msg ++ ": " ++ err.Message⟩

/-- Go `reconcile.Result`. -/
structure Result where
  Requeue : Bool
  RequeueAfter : Nat
deriving DecidableEq, Repr

/-- The value `reconcile.Result{}`: the zero value, no requeue requested. -/
def Result.zero : Result := ⟨false, 0⟩

/-- Go `types.NamespacedName`, the request a reconciler is handed. -/
structure NamespacedName where
  Namespace : String
  Name : String
deriving DecidableEq, Repr

/-- A Go `map[string]string`: `none` is the nil map, `some m` a map with distinct keys. -/
abbrev StringMap := Option (AList (fun _ : String => String))

/-- Go `corev1.ConfigMap`, restricted to the fields the controller reads. -/
structure ConfigMap where
  Namespace : String
  Name : String
  ResourceVersion : String
  Data : StringMap
deriving DecidableEq

/-- Go `corev1.ObjectReference`, the fields of `ConfigMapRef` that are read. -/
structure ObjectReference where
  Name : String
  ResourceVersion : String
deriving DecidableEq, Repr

/-- Type `AuditPolicy` of the shoot API: `ConfigMapRef *corev1.ObjectReference`. -/
structure AuditPolicy where
  ConfigMapRef : Option ObjectReference
deriving DecidableEq, Repr

/-- Type `AuditConfig` of the shoot API: `AuditPolicy *AuditPolicy`. -/
structure AuditConfig where
  AuditPolicy : Option AuditPolicy
deriving DecidableEq, Repr

/-- Type `KubeAPIServerConfig` of the shoot API: `AuditConfig *AuditConfig`. -/
structure KubeAPIServerConfig where
  AuditConfig : Option AuditConfig
deriving DecidableEq, Repr

/-- Type `Kubernetes` of the shoot API: `KubeAPIServer *KubeAPIServerConfig`. -/
structure Kubernetes where
  KubeAPIServer : Option KubeAPIServerConfig
deriving DecidableEq, Repr

/-- Type `ShootSpec` of the shoot API. -/
structure ShootSpec where
  Kubernetes : Kubernetes
deriving DecidableEq, Repr

/-- Go `gardencorev1beta1.Shoot`, restricted to what the controller reads. -/
structure Shoot where
  Namespace : String
  Name : String
  Spec : ShootSpec
deriving DecidableEq, Repr

/-- The dynamic value behind an `interface{}` handed to the callbacks and to
    `cache.MetaNamespaceKeyFunc`. -/
inductive Object where
  | configMap (cm : ConfigMap)
  | shoot (s : Shoot)
  | explicitKey (key : String)
  | other (description : String)
deriving DecidableEq

/-! ## Change filter -/

/-- Number of entries of a Go map (`len`), zero for the nil map. -/
def StringMap.len : StringMap → Nat
  | none => 0
  | some m => m.entries.length

/-- Go map index `m[k]` with the comma-ok result. -/
def StringMap.index : StringMap → String → Option String
  | none, _ => none
  | some m, k => m.lookup k

/-- The keys of a Go map. -/
def StringMap.mapKeys : StringMap → List String
  | none => []
  | some m => m.keys

/-- Modelled from the spec: `apiequality.Semantic.Equalities.DeepEqual` on two
    `map[string]string` values (package `k8s.io/apimachinery`, outside this repository); the
    spec calls it structural/deep equality over the content blob.  A nil map and an
    empty map are equal; otherwise the maps have the same length and every key of the
    first is bound to the same value in the second (a key missing from the second map
    indexes to `none`, which differs from the value bound in the first). -/
def DeepEqual (m1 m2 : StringMap) : Bool :=
  if (m1.len == 0) != (m2.len == 0) then false
  else if m1.len == 0 then true
  else if m1.len != m2.len then false
  else m1.mapKeys.all (fun k => m1.index k == m2.index k)

/-- Modelled from the spec: `cache.MetaNamespaceKeyFunc` (package `k8s.io/client-go`,
    outside this repository), which derives the reconciliation key, the namespace/name
    of an object.  A `cache.ExplicitKey` is its own key; an object with metadata (a
    config map, a shoot) has the key `namespace/name`, or `name` alone when its
    namespace is empty; any other value has no metadata and yields an error. -/
def MetaNamespaceKeyFunc : Object → Except Error String
  | .explicitKey key => .ok key
  | .configMap cm =>
    if cm.Namespace.length > 0 then .ok (cm.Namespace ++ "/" ++ cm.Name) else .ok cm.Name
  | .shoot s =>
    if s.Namespace.length > 0 then .ok (s.Namespace ++ "/" ++ s.Name) else .ok s.Name
  | .other description => .error ⟨false, "object has no meta: " ++ description⟩

/-- The `*Controller`, as far as the callbacks use it: the interface value
    `configMapQueue` is a queue state of some type `Q` together with its `Add` method. -/
structure Controller (Q : Type) where
  configMapQueue : Q
  Add : Q → String → Q

/-- Go: `func (c *Controller) configMapAdd(obj interface{})`.
    `keyFunc` is `cache.MetaNamespaceKeyFunc`. -/
def configMapAdd {Q : Type} (keyFunc : Object → Except Error String)
    (c : Controller Q) (obj : Object) : Controller Q :=
  match keyFunc obj with
  | .error _ => c
  | .ok key => ⟨c.Add c.configMapQueue key, c.Add⟩

/-- Go: `func (c *Controller) configMapUpdate(oldObj, newObj interface{})`.
    The two unchecked type assertions `oldObj.(*corev1.ConfigMap)` and
    `newObj.(*corev1.ConfigMap)` panic on any other dynamic type: `none`. -/
def configMapUpdate {Q : Type} (keyFunc : Object → Except Error String)
    (c : Controller Q) (oldObj newObj : Object) : Option (Controller Q) :=
  match oldObj, newObj with
  | .configMap oldConfigMap, .configMap newConfigMap =>
    if DeepEqual oldConfigMap.Data newConfigMap.Data then some c
    else some (configMapAdd keyFunc c newObj)
  | _, _ => none

/-! ## Reconciler -/

/-- The collaborators of `configMapReconciler.Reconcile` over a world state `W`:
    * `GetClient`: `r.clientMap.GetClient(ctx, keys.ForGarden())`, error or nil;
    * `Get`: `gardenClient.Client().Get(ctx, request.NamespacedName, configMap)`;
    * `List`: `r.shootLister.Shoots(namespace).List(labels.Everything())`;
    * `MetaNamespaceKeyFunc`: `cache.MetaNamespaceKeyFunc`;
    * `SubmitEmptyPatch`: `kubernetes.SubmitEmptyPatch(ctx, client, shoot)`, the only
      call that writes: it returns its error (or nil) and the next world state. -/
structure Collaborators (W : Type) where
  GetClient : W → Option Error
  Get : W → NamespacedName → Except Error ConfigMap
  List : W → String → Except Error (List Shoot)
  MetaNamespaceKeyFunc : Object → Except Error String
  SubmitEmptyPatch : W → Shoot → Option Error × W

/-- One call to a collaborator, with what it was called on; a patch call also records
    the error it returned (`none` is nil). -/
inductive Call where
  | getClient
  | get (key : NamespacedName)
  | list (ns : String)
  | patch (shoot : Shoot) (err : Option Error)
deriving DecidableEq

/-- What one pass of `Reconcile` yields: the returned `(reconcile.Result, error)` pair,
    the world after the pass and the collaborator calls made, in order. -/
structure Outcome (W : Type) where
  result : Result
  err : Option Error
  world : W
  calls : List Call

/-- The nil-guarded path
    `shoot.Spec.Kubernetes.KubeAPIServer.AuditConfig.AuditPolicy.ConfigMapRef`:
    `none` as soon as one link of the chain is nil. -/
def configMapRef (shoot : Shoot) : Option ObjectReference :=
  match shoot.Spec.Kubernetes.KubeAPIServer with
  | none => none
  | some kubeAPIServer =>
    match kubeAPIServer.AuditConfig with
    | none => none
    | some auditConfig =>
      match auditConfig.AuditPolicy with
      | none => none
      | some auditPolicy => auditPolicy.ConfigMapRef

/-- The body of `for _, shoot := range shoots` in `Reconcile`, followed by the final
    `return reconcile.Result{}, nil`. -/
def reconcileShoots {W : Type} (env : Collaborators W) (configMap : ConfigMap) :
    List Shoot → W → Outcome W
  | [], w => ⟨Result.zero, none, w, []⟩
  | shoot :: rest, w =>
    match configMapRef shoot with
    | none => reconcileShoots env configMap rest w
    | some ref =>
      if ref.Name = configMap.Name then
        match env.MetaNamespaceKeyFunc (.shoot shoot) with
        | .error _ => reconcileShoots env configMap rest w
        | .ok _ =>
          if ref.ResourceVersion ≠ configMap.ResourceVersion then
            match env.SubmitEmptyPatch w shoot with
            | (some err, w1) => ⟨Result.zero, some err, w1, [Call.patch shoot (some err)]⟩
            | (none, w1) =>
              let out := reconcileShoots env configMap rest w1
              ⟨out.result, out.err, out.world, Call.patch shoot none :: out.calls⟩
          else reconcileShoots env configMap rest w
      else reconcileShoots env configMap rest w

/-- Go: `func (r *configMapReconciler) Reconcile(ctx, request) (reconcile.Result, error)`. -/
def Reconcile {W : Type} (env : Collaborators W) (w : W) (request : NamespacedName) :
    Outcome W :=
  match env.GetClient w with
  | some err => ⟨Result.zero, some (Errorf "failed to get garden client" err), w, [Call.getClient]⟩
  | none =>
    match env.Get w request with
    | .error err =>
      if err.IsNotFound then ⟨Result.zero, none, w, [Call.getClient, Call.get request]⟩
      else ⟨Result.zero, some err, w, [Call.getClient, Call.get request]⟩
    | .ok configMap =>
      match env.List w configMap.Namespace with
      | .error err =>
        ⟨Result.zero, some err, w,
          [Call.getClient, Call.get request, Call.list configMap.Namespace]⟩
      | .ok shoots =>
        let out := reconcileShoots env configMap shoots w
        ⟨out.result, out.err, out.world,
          Call.getClient :: Call.get request :: Call.list configMap.Namespace :: out.calls⟩

/-- The cascade triggers among a sequence of calls: the shoots `SubmitEmptyPatch` was
    called on, in call order. -/
def triggers : List Call → List Shoot
  | [] => []
  | Call.patch shoot _ :: rest => shoot :: triggers rest
  | _ :: rest => triggers rest

/-- Whether the list call was made. -/
def listed (calls : List Call) : Bool :=
  calls.any (fun c => match c with | Call.list _ => true | _ => false)

/-- The staleness test the loop applies to a shoot: the reference is present, names the
    config map and records another resource version. -/
def isStale (configMap : ConfigMap) (shoot : Shoot) : Bool :=
  match configMapRef shoot with
  | none => false
  | some ref =>
    decide (ref.Name = configMap.Name) &&
      decide (ref.ResourceVersion ≠ configMap.ResourceVersion)

/-! ## Derived notions used in the statements -/

/-- Whether `cache.MetaNamespaceKeyFunc` yields a key for the shoot. -/
def keyDerived {W : Type} (env : Collaborators W) (shoot : Shoot) : Bool :=
  match env.MetaNamespaceKeyFunc (.shoot shoot) with
  | .ok _ => true
  | .error _ => false

/-- The shoots of a list the loop calls `SubmitEmptyPatch` on unless it returns before:
    the stale ones whose key is derived, in list order. -/
def patchTargets {W : Type} (env : Collaborators W) (configMap : ConfigMap)
    (shoots : List Shoot) : List Shoot :=
  shoots.filter (fun s => isStale configMap s && keyDerived env s)

/-! ## Concrete stores used to instantiate the theorems -/

/-- A shoot whose audit policy carries the given config map reference. -/
def shootWithRef (ns name : String) (ref : Option ObjectReference) : Shoot :=
  ⟨ns, name, ⟨⟨some ⟨some ⟨some ⟨ref⟩⟩⟩⟩⟩⟩

/-- Config map `garden/A` at resource version `v2`. -/
def cfgA : ConfigMap := ⟨"garden", "A", "v2", none⟩

/-- The request for `garden/A`. -/
def reqA : NamespacedName := ⟨"garden", "A"⟩

/-- Shoot `X`, recording `A` at `v1`. -/
def depX : Shoot := shootWithRef "garden" "X" (some ⟨"A", "v1"⟩)

/-- Shoot `Y`, recording `A` at `v0`. -/
def depY : Shoot := shootWithRef "garden" "Y" (some ⟨"A", "v0"⟩)

/-- Shoot `Z`, recording another config map `B`. -/
def depZ : Shoot := shootWithRef "garden" "Z" (some ⟨"B", "v0"⟩)

/-- Shoot `U`, recording `A` at its current version `v2`. -/
def depU : Shoot := shootWithRef "garden" "U" (some ⟨"A", "v2"⟩)

/-- Shoot `N`, without a kube-apiserver section and so without a reference. -/
def depN : Shoot := ⟨"garden", "N", ⟨⟨none⟩⟩⟩

/-- A store holding one config map and a list of shoots, over a world that counts the
    patches that went through: the client is obtained, a config map under another key is
    not found, the list returns the shoots of the namespace, keys are derived by
    `keyFunc` and a patch of `shoot` returns `patchErr shoot`. -/
def storeWith (cm : ConfigMap) (shoots : List Shoot)
    (keyFunc : Object → Except Error String) (patchErr : Shoot → Option Error) :
    Collaborators Nat :=
  ⟨fun _ => none,
    fun _ key => if key = ⟨cm.Namespace, cm.Name⟩ then .ok cm
      else .error ⟨true, "configmaps not found"⟩,
    fun _ ns => .ok (shoots.filter (fun s => s.Namespace = ns)),
    keyFunc,
    fun w shoot =>
      match patchErr shoot with
      | some err => (some err, w)
      | none => (none, w + 1)⟩

/-- The store in which every key is derived and every patch succeeds. -/
def store (cm : ConfigMap) (shoots : List Shoot) : Collaborators Nat :=
  storeWith cm shoots MetaNamespaceKeyFunc (fun _ => none)

/-- A controller whose queue is the sequence of keys added so far. -/
def recordingController : Controller (List String) :=
  ⟨[], fun q key => q ++ [key]⟩

/-- Config map `garden/A` after a touch that changed its resource version and turned the
    nil `Data` into an empty map. -/
def cfgATouched : ConfigMap := ⟨"garden", "A", "v3", some ∅⟩

/-- Config map `garden/A` with new content. -/
def cfgAEdited : ConfigMap := ⟨"garden", "A", "v3", some (AList.insert "policy" "p2" ∅)⟩

/-- The shoot a pass triggers first, read off the store alone. -/
def firstTarget {W : Type} (env : Collaborators W) (w : W) (request : NamespacedName) :
    Option Shoot :=
  match env.GetClient w with
  | some _ => none
  | none =>
    match env.Get w request with
    | .error _ => none
    | .ok configMap =>
      match env.List w configMap.Namespace with
      | .error _ => none
      | .ok shoots => (patchTargets env configMap shoots).head?

/-- The not-found error a patch returns for a shoot that is gone. -/
def shootGone : Error := ⟨true, "shoots not found"⟩

/-- An error of the API server that is not a not-found. -/
def serverTimeout : Error := ⟨false, "the server was unable to return a response in time"⟩

/-- The patch outcome in which only the patch of `shoot` fails, with `err`. -/
def failOn (shoot : Shoot) (err : Error) : Shoot → Option Error :=
  fun s => if s = shoot then some err else none

/-! ## The loop, one shoot at a time -/

theorem reconcileShoots_skip {W : Type} (env : Collaborators W) (cm : ConfigMap)
    (shoot : Shoot) (rest : List Shoot) (w : W)
    (h : (isStale cm shoot && keyDerived env shoot) = false) :
    reconcileShoots env cm (shoot :: rest) w = reconcileShoots env cm rest w := by
  unfold isStale keyDerived at h
  rw [reconcileShoots]
  cases hr : configMapRef shoot with
  | none => rfl
  | some ref =>
    rw [hr] at h
    by_cases hn : ref.Name = cm.Name
    · cases hk : env.MetaNamespaceKeyFunc (.shoot shoot) with
      | error e => simp [hn]
      | ok k =>
        by_cases hv : ref.ResourceVersion = cm.ResourceVersion
        · simp [hn, hv]
        · simp [hn, hv, hk] at h
    · simp [hn]

theorem reconcileShoots_patch_fail {W : Type} (env : Collaborators W) (cm : ConfigMap)
    (shoot : Shoot) (rest : List Shoot) (w : W) (e : Error)
    (h : (isStale cm shoot && keyDerived env shoot) = true)
    (hp : (env.SubmitEmptyPatch w shoot).1 = some e) :
    reconcileShoots env cm (shoot :: rest) w =
      ⟨Result.zero, some e, (env.SubmitEmptyPatch w shoot).2,
        [Call.patch shoot (some e)]⟩ := by
  unfold isStale keyDerived at h
  rw [reconcileShoots]
  cases hr : configMapRef shoot with
  | none => simp [hr] at h
  | some ref =>
    rw [hr] at h
    cases hk : env.MetaNamespaceKeyFunc (.shoot shoot) with
    | error e1 => simp [hk] at h
    | ok k =>
      simp only [hk, Bool.and_true, Bool.and_eq_true, decide_eq_true_eq] at h
      obtain ⟨w1, hw1⟩ : ∃ w1, env.SubmitEmptyPatch w shoot = (some e, w1) :=
        ⟨(env.SubmitEmptyPatch w shoot).2, by rw [← hp]⟩
      simp [h.1, h.2, hw1]

theorem reconcileShoots_patch_ok {W : Type} (env : Collaborators W) (cm : ConfigMap)
    (shoot : Shoot) (rest : List Shoot) (w : W)
    (h : (isStale cm shoot && keyDerived env shoot) = true)
    (hp : (env.SubmitEmptyPatch w shoot).1 = none) :
    reconcileShoots env cm (shoot :: rest) w =
      ⟨(reconcileShoots env cm rest (env.SubmitEmptyPatch w shoot).2).result,
        (reconcileShoots env cm rest (env.SubmitEmptyPatch w shoot).2).err,
        (reconcileShoots env cm rest (env.SubmitEmptyPatch w shoot).2).world,
        Call.patch shoot none ::
          (reconcileShoots env cm rest (env.SubmitEmptyPatch w shoot).2).calls⟩ := by
  unfold isStale keyDerived at h
  rw [reconcileShoots]
  cases hr : configMapRef shoot with
  | none => simp [hr] at h
  | some ref =>
    rw [hr] at h
    cases hk : env.MetaNamespaceKeyFunc (.shoot shoot) with
    | error e1 => simp [hk] at h
    | ok k =>
      simp only [hk, Bool.and_true, Bool.and_eq_true, decide_eq_true_eq] at h
      obtain ⟨w1, hw1⟩ : ∃ w1, env.SubmitEmptyPatch w shoot = (none, w1) :=
        ⟨(env.SubmitEmptyPatch w shoot).2, by rw [← hp]⟩
      simp [h.1, h.2, hw1]

/-! ## The loop as a whole -/

theorem patchTargets_cons_skip {W : Type} (env : Collaborators W) (cm : ConfigMap)
    (shoot : Shoot) (rest : List Shoot)
    (h : (isStale cm shoot && keyDerived env shoot) = false) :
    patchTargets env cm (shoot :: rest) = patchTargets env cm rest := by
  simp [patchTargets, List.filter_cons, h]

theorem patchTargets_cons_keep {W : Type} (env : Collaborators W) (cm : ConfigMap)
    (shoot : Shoot) (rest : List Shoot)
    (h : (isStale cm shoot && keyDerived env shoot) = true) :
    patchTargets env cm (shoot :: rest) = shoot :: patchTargets env cm rest := by
  simp [patchTargets, List.filter_cons, h]

theorem reconcileShoots_result {W : Type} (env : Collaborators W) (cm : ConfigMap)
    (shoots : List Shoot) (w : W) :
    (reconcileShoots env cm shoots w).result = Result.zero := by
  induction shoots generalizing w with
  | nil => rfl
  | cons shoot rest ih =>
    cases h : (isStale cm shoot && keyDerived env shoot) with
    | false => rw [reconcileShoots_skip env cm shoot rest w h]; exact ih w
    | true =>
      cases hp : (env.SubmitEmptyPatch w shoot).1 with
      | some e => rw [reconcileShoots_patch_fail env cm shoot rest w e h hp]
      | none => rw [reconcileShoots_patch_ok env cm shoot rest w h hp]; exact ih _

/-- Every call the loop makes is a patch of a listed, stale shoot with a derived key. -/
theorem reconcileShoots_calls_stale {W : Type} (env : Collaborators W) (cm : ConfigMap)
    (shoots : List Shoot) (w : W) (c : Call)
    (hc : c ∈ (reconcileShoots env cm shoots w).calls) :
    ∃ s e, c = Call.patch s e ∧ s ∈ shoots ∧ isStale cm s = true ∧
      keyDerived env s = true := by
  induction shoots generalizing w with
  | nil => simp [reconcileShoots] at hc
  | cons shoot rest ih =>
    cases h : (isStale cm shoot && keyDerived env shoot) with
    | false =>
      rw [reconcileShoots_skip env cm shoot rest w h] at hc
      obtain ⟨s, e, h1, h2, h3⟩ := ih w hc
      exact ⟨s, e, h1, List.mem_cons_of_mem _ h2, h3⟩
    | true =>
      have hs : isStale cm shoot = true ∧ keyDerived env shoot = true := by
        simpa using h
      cases hp : (env.SubmitEmptyPatch w shoot).1 with
      | some e =>
        rw [reconcileShoots_patch_fail env cm shoot rest w e h hp] at hc
        simp only [List.mem_singleton] at hc
        exact ⟨shoot, some e, hc, List.mem_cons_self _ _, hs⟩
      | none =>
        rw [reconcileShoots_patch_ok env cm shoot rest w h hp] at hc
        simp only [List.mem_cons] at hc
        rcases hc with hc | hc
        · exact ⟨shoot, none, hc, List.mem_cons_self _ _, hs⟩
        · obtain ⟨s, e, h1, h2, h3⟩ := ih _ hc
          exact ⟨s, e, h1, List.mem_cons_of_mem _ h2, h3⟩

/-- A pass of the loop that returns nil has patched every target, each call returning
    nil. -/
theorem reconcileShoots_success {W : Type} (env : Collaborators W) (cm : ConfigMap)
    (shoots : List Shoot) (w : W)
    (he : (reconcileShoots env cm shoots w).err = none) :
    (reconcileShoots env cm shoots w).calls =
      (patchTargets env cm shoots).map (fun s => Call.patch s none) := by
  induction shoots generalizing w with
  | nil => rfl
  | cons shoot rest ih =>
    cases h : (isStale cm shoot && keyDerived env shoot) with
    | false =>
      rw [reconcileShoots_skip env cm shoot rest w h] at he ⊢
      rw [patchTargets_cons_skip env cm shoot rest h]
      exact ih w he
    | true =>
      cases hp : (env.SubmitEmptyPatch w shoot).1 with
      | some e =>
        rw [reconcileShoots_patch_fail env cm shoot rest w e h hp] at he
        simp at he
      | none =>
        rw [reconcileShoots_patch_ok env cm shoot rest w h hp] at he ⊢
        rw [patchTargets_cons_keep env cm shoot rest h]
        simp only [List.map_cons, List.cons.injEq, true_and]
        exact ih _ he

/-- When no patch of a target can fail, the loop returns nil. -/
theorem reconcileShoots_no_failure {W : Type} (env : Collaborators W) (cm : ConfigMap)
    (shoots : List Shoot) (w : W)
    (hp : ∀ s ∈ patchTargets env cm shoots, ∀ v, (env.SubmitEmptyPatch v s).1 = none) :
    (reconcileShoots env cm shoots w).err = none := by
  induction shoots generalizing w with
  | nil => rfl
  | cons shoot rest ih =>
    cases h : (isStale cm shoot && keyDerived env shoot) with
    | false =>
      rw [reconcileShoots_skip env cm shoot rest w h]
      rw [patchTargets_cons_skip env cm shoot rest h] at hp
      exact ih w hp
    | true =>
      rw [patchTargets_cons_keep env cm shoot rest h] at hp
      have h0 := hp shoot (List.mem_cons_self _ _) w
      rw [reconcileShoots_patch_ok env cm shoot rest w h h0]
      exact ih _ (fun s hs v => hp s (List.mem_cons_of_mem _ hs) v)

/-- A patch call that returned an error is the last call of the loop, and the loop
    returns that error. -/
theorem reconcileShoots_failed_last {W : Type} (env : Collaborators W) (cm : ConfigMap)
    (shoots : List Shoot) (w : W) (s : Shoot) (e : Error)
    (hc : Call.patch s (some e) ∈ (reconcileShoots env cm shoots w).calls) :
    (reconcileShoots env cm shoots w).err = some e ∧
      (reconcileShoots env cm shoots w).calls.getLast? = some (Call.patch s (some e)) := by
  induction shoots generalizing w with
  | nil => simp [reconcileShoots] at hc
  | cons shoot rest ih =>
    cases h : (isStale cm shoot && keyDerived env shoot) with
    | false =>
      rw [reconcileShoots_skip env cm shoot rest w h] at hc ⊢
      exact ih w hc
    | true =>
      cases hp : (env.SubmitEmptyPatch w shoot).1 with
      | some e1 =>
        rw [reconcileShoots_patch_fail env cm shoot rest w e1 h hp] at hc ⊢
        simp only [List.mem_singleton, Call.patch.injEq, Option.some.injEq] at hc
        obtain ⟨rfl, rfl⟩ := hc
        simp
      | none =>
        rw [reconcileShoots_patch_ok env cm shoot rest w h hp] at hc ⊢
        simp only [List.mem_cons, Call.patch.injEq, false_and, false_or, reduceCtorEq,
          and_false] at hc
        obtain ⟨h1, h2⟩ := ih _ hc
        refine ⟨h1, ?_⟩
        simp only
        obtain ⟨c, cs, hcs⟩ := List.exists_cons_of_ne_nil (List.ne_nil_of_mem hc)
        rw [hcs] at h2 ⊢
        rw [List.getLast?_cons_cons]
        exact h2

/-! ## Triggers -/

theorem triggers_map_patch (l : List Shoot) :
    triggers (l.map (fun s => Call.patch s none)) = l := by
  induction l with
  | nil => rfl
  | cons s rest ih => simp [triggers, ih]

theorem mem_triggers (calls : List Call) (s : Shoot) :
    s ∈ triggers calls ↔ ∃ e, Call.patch s e ∈ calls := by
  induction calls with
  | nil => simp [triggers]
  | cons c rest ih =>
    cases c with
    | getClient => simp [triggers, ih]
    | get key => simp [triggers, ih]
    | list ns => simp [triggers, ih]
    | patch t e =>
      simp only [triggers, List.mem_cons, ih, Call.patch.injEq]
      constructor
      · rintro (h | ⟨e1, h⟩)
        · exact ⟨e, Or.inl ⟨h, rfl⟩⟩
        · exact ⟨e1, Or.inr h⟩
      · rintro ⟨e1, h | h⟩
        · exact Or.inl h.1
        · exact Or.inr ⟨e1, h⟩

/-- The first trigger of the loop is the first target, whatever the patch calls
    return. -/
theorem reconcileShoots_head {W : Type} (env : Collaborators W) (cm : ConfigMap)
    (shoots : List Shoot) (w : W) :
    (triggers (reconcileShoots env cm shoots w).calls).head? =
      (patchTargets env cm shoots).head? := by
  induction shoots generalizing w with
  | nil => rfl
  | cons shoot rest ih =>
    cases h : (isStale cm shoot && keyDerived env shoot) with
    | false =>
      rw [reconcileShoots_skip env cm shoot rest w h,
        patchTargets_cons_skip env cm shoot rest h]
      exact ih w
    | true =>
      rw [patchTargets_cons_keep env cm shoot rest h]
      cases hp : (env.SubmitEmptyPatch w shoot).1 with
      | some e =>
        rw [reconcileShoots_patch_fail env cm shoot rest w e h hp]
        rfl
      | none =>
        rw [reconcileShoots_patch_ok env cm shoot rest w h hp]
        rfl

/-- When the error a patch returns does not depend on the world, neither do the calls
    of the loop. -/
theorem reconcileShoots_calls_congr {W : Type} (env : Collaborators W) (cm : ConfigMap)
    (shoots : List Shoot) (w v : W)
    (hp : ∀ a b s, (env.SubmitEmptyPatch a s).1 = (env.SubmitEmptyPatch b s).1) :
    (reconcileShoots env cm shoots w).calls = (reconcileShoots env cm shoots v).calls := by
  induction shoots generalizing w v with
  | nil => rfl
  | cons shoot rest ih =>
    cases h : (isStale cm shoot && keyDerived env shoot) with
    | false =>
      rw [reconcileShoots_skip env cm shoot rest w h,
        reconcileShoots_skip env cm shoot rest v h]
      exact ih w v
    | true =>
      cases hw : (env.SubmitEmptyPatch w shoot).1 with
      | some e =>
        have hv : (env.SubmitEmptyPatch v shoot).1 = some e := by rw [hp v w shoot, hw]
        rw [reconcileShoots_patch_fail env cm shoot rest w e h hw,
          reconcileShoots_patch_fail env cm shoot rest v e h hv]
      | none =>
        have hv : (env.SubmitEmptyPatch v shoot).1 = none := by rw [hp v w shoot, hw]
        rw [reconcileShoots_patch_ok env cm shoot rest w h hw,
          reconcileShoots_patch_ok env cm shoot rest v h hv]
        simp only [List.cons.injEq, true_and]
        exact ih _ _

theorem isStale_iff (cm : ConfigMap) (s : Shoot) :
    isStale cm s = true ↔
      ∃ ref, configMapRef s = some ref ∧ ref.Name = cm.Name ∧
        ref.ResourceVersion ≠ cm.ResourceVersion := by
  unfold isStale
  cases h : configMapRef s with
  | none => simp
  | some ref => simp

/-! ## The reconciler, by the outcome of fetch and list -/

theorem Reconcile_listed {W : Type} (env : Collaborators W) (w : W)
    (request : NamespacedName) (cm : ConfigMap) (shoots : List Shoot)
    (hclient : env.GetClient w = none) (hget : env.Get w request = .ok cm)
    (hlist : env.List w cm.Namespace = .ok shoots) :
    Reconcile env w request =
      ⟨(reconcileShoots env cm shoots w).result, (reconcileShoots env cm shoots w).err,
        (reconcileShoots env cm shoots w).world,
        Call.getClient :: Call.get request :: Call.list cm.Namespace ::
          (reconcileShoots env cm shoots w).calls⟩ := by
  simp [Reconcile, hclient, hget, hlist]

theorem Reconcile_triggers_listed {W : Type} (env : Collaborators W) (w : W)
    (request : NamespacedName) (cm : ConfigMap) (shoots : List Shoot)
    (hclient : env.GetClient w = none) (hget : env.Get w request = .ok cm)
    (hlist : env.List w cm.Namespace = .ok shoots) :
    triggers (Reconcile env w request).calls =
      triggers (reconcileShoots env cm shoots w).calls := by
  rw [Reconcile_listed env w request cm shoots hclient hget hlist]
  rfl

/-- A patch call of a pass is a call of its loop: the fetch and the list succeeded. -/
theorem Reconcile_patch_called {W : Type} (env : Collaborators W) (w : W)
    (request : NamespacedName) (s : Shoot) (e : Option Error)
    (hc : Call.patch s e ∈ (Reconcile env w request).calls) :
    ∃ cm shoots, env.GetClient w = none ∧ env.Get w request = .ok cm ∧
      env.List w cm.Namespace = .ok shoots ∧
      Call.patch s e ∈ (reconcileShoots env cm shoots w).calls := by
  cases hclient : env.GetClient w with
  | some err => simp [Reconcile, hclient] at hc
  | none =>
    cases hget : env.Get w request with
    | error err =>
      by_cases hnf : err.IsNotFound = true <;> simp [Reconcile, hclient, hget, hnf] at hc
    | ok cm =>
      cases hlist : env.List w cm.Namespace with
      | error err => simp [Reconcile, hclient, hget, hlist] at hc
      | ok shoots =>
        rw [Reconcile_listed env w request cm shoots hclient hget hlist] at hc
        simp only [List.mem_cons, reduceCtorEq, false_or] at hc
        exact ⟨cm, shoots, rfl, rfl, hlist, hc⟩

/-- A patch call that returned an error is the last call of the pass, and the pass
    returns that error. -/
theorem Reconcile_patch_failed {W : Type} (env : Collaborators W) (w : W)
    (request : NamespacedName) (s : Shoot) (e : Error)
    (hc : Call.patch s (some e) ∈ (Reconcile env w request).calls) :
    (Reconcile env w request).err = some e ∧
      (Reconcile env w request).calls.getLast? = some (Call.patch s (some e)) := by
  obtain ⟨cm, shoots, hclient, hget, hlist, hc1⟩ :=
    Reconcile_patch_called env w request s _ hc
  obtain ⟨h1, h2⟩ := reconcileShoots_failed_last env cm shoots w s e hc1
  rw [Reconcile_listed env w request cm shoots hclient hget hlist]
  refine ⟨h1, ?_⟩
  obtain ⟨c, cs, hcs⟩ := List.exists_cons_of_ne_nil (List.ne_nil_of_mem hc1)
  simp only
  rw [hcs] at h2 ⊢
  rw [List.getLast?_cons_cons, List.getLast?_cons_cons, List.getLast?_cons_cons]
  exact h2

/-- With every key derived and no patch failing, a pass that fetched and listed returns
    nil having triggered the stale shoots of the list, in order. -/
theorem Reconcile_all_succeed {W : Type} (env : Collaborators W) (w : W)
    (request : NamespacedName) (cm : ConfigMap) (shoots : List Shoot)
    (hclient : env.GetClient w = none) (hget : env.Get w request = .ok cm)
    (hlist : env.List w cm.Namespace = .ok shoots)
    (hkey : ∀ s ∈ shoots, keyDerived env s = true)
    (hpatch : ∀ v s, (env.SubmitEmptyPatch v s).1 = none) :
    (Reconcile env w request).err = none ∧
      triggers (Reconcile env w request).calls = shoots.filter (fun s => isStale cm s) := by
  have he : (reconcileShoots env cm shoots w).err = none :=
    reconcileShoots_no_failure env cm shoots w (fun s _ v => hpatch v s)
  have ht : patchTargets env cm shoots = shoots.filter (fun s => isStale cm s) := by
    unfold patchTargets
    apply List.filter_congr
    intro s hs
    simp [hkey s hs]
  refine ⟨?_, ?_⟩
  · rw [Reconcile_listed env w request cm shoots hclient hget hlist]
    exact he
  · rw [Reconcile_triggers_listed env w request cm shoots hclient hget hlist,
      reconcileShoots_success env cm shoots w he, triggers_map_patch, ht]

/-- The library key function derives a key for every shoot. -/
theorem MetaNamespaceKeyFunc_shoot (s : Shoot) :
    ∃ key, MetaNamespaceKeyFunc (.shoot s) = .ok key := by
  by_cases h : s.Namespace.length > 0
  · exact ⟨s.Namespace ++ "/" ++ s.Name, by simp [MetaNamespaceKeyFunc, h]⟩
  · exact ⟨s.Name, by simp [MetaNamespaceKeyFunc, h]⟩

/-! ## Completeness, isolation, scenario -/

/-- C1 (completeness): when the client is obtained, the fetch and the list succeed, a key
    is derived for every listed shoot and every empty-patch call succeeds, `Reconcile`
    returns the zero result with a nil error, and the shoots it triggered are exactly,
    in list order and entry by entry, the listed shoots whose reference is present,
    names the config map and records a resource version other than the current one;
    every patch call made returned nil. -/
theorem Reconcile_completeness {W : Type} (env : Collaborators W) (w : W)
    (request : NamespacedName) (configMap : ConfigMap) (shoots : List Shoot)
    (hclient : env.GetClient w = none)
    (hget : env.Get w request = .ok configMap)
    (hlist : env.List w configMap.Namespace = .ok shoots)
    (hkey : ∀ s ∈ shoots, ∃ key, env.MetaNamespaceKeyFunc (.shoot s) = .ok key)
    (hpatch : ∀ v s, (env.SubmitEmptyPatch v s).1 = none) :
    (Reconcile env w request).result = Result.zero ∧
      (Reconcile env w request).err = none ∧
      triggers (Reconcile env w request).calls =
        shoots.filter (fun s =>
          match configMapRef s with
          | none => false
          | some ref => decide (ref.Name = configMap.Name) &&
              decide (ref.ResourceVersion ≠ configMap.ResourceVersion)) ∧
      ∀ s e, Call.patch s e ∈ (Reconcile env w request).calls → e = none := by
  have hkey1 : ∀ s ∈ shoots, keyDerived env s = true := by
    intro s hs
    obtain ⟨key, hk⟩ := hkey s hs
    simp [keyDerived, hk]
  obtain ⟨h1, h2⟩ :=
    Reconcile_all_succeed env w request configMap shoots hclient hget hlist hkey1 hpatch
  refine ⟨?_, h1, h2, ?_⟩
  · rw [Reconcile_listed env w request configMap shoots hclient hget hlist]
    exact reconcileShoots_result env configMap shoots w
  · intro s e hc
    cases e with
    | none => rfl
    | some err =>
      have h4 := (Reconcile_patch_failed env w request s err hc).1
      rw [h1] at h4
      cases h4

/-- C1, instantiated: of the five shoots listed for `garden/A` at `v2`, the two that
    record `A` at another version are triggered, in list order. -/
theorem Reconcile_completeness_witness :
    (Reconcile (store cfgA [depX, depN, depZ, depU, depY]) 0 reqA).err = none ∧
      triggers (Reconcile (store cfgA [depX, depN, depZ, depU, depY]) 0 reqA).calls =
        [depX, depY] :=
  have h := Reconcile_completeness (store cfgA [depX, depN, depZ, depU, depY]) 0 reqA cfgA
    [depX, depN, depZ, depU, depY] rfl rfl rfl
    (fun s _ => MetaNamespaceKeyFunc_shoot s) (fun _ _ => rfl)
  ⟨h.2.1, h.2.2.1.trans (by decide)⟩

/-- C2 (isolation): in every pass, whatever it returns, a shoot that was sent a cascade
    trigger has a non-nil reference that names the fetched config map and records a
    resource version other than the current one; a shoot with a nil link on the
    reference path, with a reference to another config map or with the current version
    recorded is not among the triggered ones. -/
theorem Reconcile_isolation {W : Type} (env : Collaborators W) (w : W)
    (request : NamespacedName) (s : Shoot) :
    (s ∈ triggers (Reconcile env w request).calls →
        ∃ configMap ref, env.Get w request = .ok configMap ∧
          configMapRef s = some ref ∧ ref.Name = configMap.Name ∧
          ref.ResourceVersion ≠ configMap.ResourceVersion) ∧
      (configMapRef s = none → s ∉ triggers (Reconcile env w request).calls) ∧
      (∀ configMap ref, env.Get w request = .ok configMap → configMapRef s = some ref →
        ref.Name ≠ configMap.Name ∨ ref.ResourceVersion = configMap.ResourceVersion →
        s ∉ triggers (Reconcile env w request).calls) := by
  have key : s ∈ triggers (Reconcile env w request).calls →
      ∃ configMap ref, env.Get w request = .ok configMap ∧
        configMapRef s = some ref ∧ ref.Name = configMap.Name ∧
        ref.ResourceVersion ≠ configMap.ResourceVersion := by
    intro hs
    obtain ⟨e, hc⟩ := (mem_triggers _ s).1 hs
    obtain ⟨cm, shoots, _, hget, _, hc1⟩ := Reconcile_patch_called env w request s e hc
    obtain ⟨t, e1, heq, _, hst, _⟩ := reconcileShoots_calls_stale env cm shoots w _ hc1
    simp only [Call.patch.injEq] at heq
    obtain ⟨ref, h1, h2, h3⟩ := (isStale_iff cm t).1 hst
    exact ⟨cm, ref, hget, heq.1 ▸ h1, h2, h3⟩
  refine ⟨key, ?_, ?_⟩
  · intro hnone hs
    obtain ⟨_, ref, _, href, _⟩ := key hs
    rw [hnone] at href
    cases href
  · intro cm ref hget href hor hs
    obtain ⟨cm1, ref1, hget1, href1, hname, hversion⟩ := key hs
    rw [hget] at hget1
    rw [href] at href1
    cases hget1
    cases href1
    rcases hor with h | h
    · exact h hname
    · exact hversion h

/-- C2, instantiated at the triggered shoot `Y` of a mixed list. -/
theorem Reconcile_isolation_witness :
    depY ∈ triggers (Reconcile (store cfgA [depN, depZ, depU, depY]) 0 reqA).calls ∧
      ∃ configMap ref, (store cfgA [depN, depZ, depU, depY]).Get 0 reqA = .ok configMap ∧
        configMapRef depY = some ref ∧ ref.Name = configMap.Name ∧
        ref.ResourceVersion ≠ configMap.ResourceVersion :=
  ⟨by decide, (Reconcile_isolation (store cfgA [depN, depZ, depU, depY]) 0 reqA depY).1
    (by decide)⟩

/-- C3, as stated, fails: with `A` at `v2` and the shoots `X` recording `{A, v1}` and `Y`
    recording `{A, v0}`, all calls succeeding, the pass also triggers `X`; the triggers
    are not `Y` alone. -/
theorem scenario_triggers_X :
    (Reconcile (store cfgA [depX, depY]) 0 reqA).err = none ∧
      depX ∈ triggers (Reconcile (store cfgA [depX, depY]) 0 reqA).calls ∧
      triggers (Reconcile (store cfgA [depX, depY]) 0 reqA).calls ≠ [depY] := by
  decide

/-- C3, amended: when the config map has current version `v2`, the shoots listed for its
    namespace are `X` with reference `{A, v1}` and `Y` with reference `{A, v0}`, and all
    calls succeed, one pass returns nil and triggers both `X` and `Y`, in list order:
    both recorded versions differ from `v2`. -/
theorem scenario_triggers_both {W : Type} (env : Collaborators W) (w : W)
    (request : NamespacedName) (configMap : ConfigMap) (X Y : Shoot)
    (hclient : env.GetClient w = none)
    (hget : env.Get w request = .ok configMap)
    (hversion : configMap.ResourceVersion = "v2")
    (hlist : env.List w configMap.Namespace = .ok [X, Y])
    (hX : configMapRef X = some ⟨configMap.Name, "v1"⟩)
    (hY : configMapRef Y = some ⟨configMap.Name, "v0"⟩)
    (hkey : ∀ s ∈ [X, Y], ∃ key, env.MetaNamespaceKeyFunc (.shoot s) = .ok key)
    (hpatch : ∀ v s, (env.SubmitEmptyPatch v s).1 = none) :
    (Reconcile env w request).err = none ∧
      triggers (Reconcile env w request).calls = [X, Y] := by
  have hkey1 : ∀ s ∈ [X, Y], keyDerived env s = true := by
    intro s hs
    obtain ⟨key, hk⟩ := hkey s hs
    simp [keyDerived, hk]
  obtain ⟨h1, h2⟩ :=
    Reconcile_all_succeed env w request configMap [X, Y] hclient hget hlist hkey1 hpatch
  refine ⟨h1, ?_⟩
  rw [h2]
  have sX : isStale configMap X = true := by
    rw [isStale_iff]
    exact ⟨_, hX, rfl, by rw [hversion]; show "v1" ≠ "v2"; decide⟩
  have sY : isStale configMap Y = true := by
    rw [isStale_iff]
    exact ⟨_, hY, rfl, by rw [hversion]; show "v0" ≠ "v2"; decide⟩
  simp [List.filter_cons, sX, sY]

/-- C3, amended, instantiated at the store of the scenario. -/
theorem scenario_triggers_both_witness :
    (Reconcile (store cfgA [depX, depY]) 0 reqA).err = none ∧
      triggers (Reconcile (store cfgA [depX, depY]) 0 reqA).calls = [depX, depY] :=
  scenario_triggers_both (store cfgA [depX, depY]) 0 reqA cfgA depX depY rfl rfl rfl rfl
    rfl rfl (fun s _ => MetaNamespaceKeyFunc_shoot s) (fun _ _ => rfl)

/-! ## Change filter -/

/-- C4 (selective cascading): two `Data` maps that are both nil or empty are deeply
    equal, and whenever the `Data` of the previous and of the current config map are
    deeply equal, `configMapUpdate` returns with the controller, its work queue included,
    unchanged, whatever the names, namespaces and resource versions of the two. -/
theorem configMapUpdate_equal_data {Q : Type} (keyFunc : Object → Except Error String)
    (c : Controller Q) (previous current : ConfigMap) :
    (previous.Data.len = 0 → current.Data.len = 0 →
        DeepEqual previous.Data current.Data = true) ∧
      (DeepEqual previous.Data current.Data = true →
        configMapUpdate keyFunc c (.configMap previous) (.configMap current) = some c) := by
  constructor
  · intro h1 h2
    simp [DeepEqual, h1, h2]
  · intro h
    simp [configMapUpdate, h]

/-- C4, instantiated: a change of resource version with `Data` going from nil to the
    empty map adds nothing to the queue. -/
theorem configMapUpdate_equal_data_witness :
    DeepEqual cfgA.Data cfgATouched.Data = true ∧
      configMapUpdate MetaNamespaceKeyFunc recordingController (.configMap cfgA)
        (.configMap cfgATouched) = some recordingController :=
  ⟨by decide,
    (configMapUpdate_equal_data MetaNamespaceKeyFunc recordingController cfgA cfgATouched).2
      (by decide)⟩

/-! ## Deletion safety -/

/-- C5 (deletion safety): when the fetch of the config map fails with a not-found error,
    `Reconcile` returns the zero result (no requeue, no requeue delay) with a nil error,
    leaves the world as it was, makes no list call and triggers no shoot. -/
theorem Reconcile_not_found {W : Type} (env : Collaborators W) (w : W)
    (request : NamespacedName) (err : Error)
    (hclient : env.GetClient w = none)
    (hget : env.Get w request = .error err)
    (hnotFound : err.IsNotFound = true) :
    (Reconcile env w request).result = Result.zero ∧
      (Reconcile env w request).result.Requeue = false ∧
      (Reconcile env w request).result.RequeueAfter = 0 ∧
      (Reconcile env w request).err = none ∧
      (Reconcile env w request).world = w ∧
      triggers (Reconcile env w request).calls = [] ∧
      listed (Reconcile env w request).calls = false ∧
      (Reconcile env w request).calls = [Call.getClient, Call.get request] := by
  simp [Reconcile, hclient, hget, hnotFound, Result.zero, triggers, listed]

/-- C5, instantiated: the request for `garden/B` on a store that holds only `garden/A`. -/
theorem Reconcile_not_found_witness :
    (Reconcile (store cfgA [depZ]) 0 ⟨"garden", "B"⟩).err = none ∧
      triggers (Reconcile (store cfgA [depZ]) 0 ⟨"garden", "B"⟩).calls = [] ∧
      listed (Reconcile (store cfgA [depZ]) 0 ⟨"garden", "B"⟩).calls = false :=
  have h := Reconcile_not_found (store cfgA [depZ]) 0 ⟨"garden", "B"⟩
    ⟨true, "configmaps not found"⟩ rfl rfl rfl
  ⟨h.2.2.2.1, h.2.2.2.2.2.1, h.2.2.2.2.2.2.1⟩

/-! ## A second pass over the same store -/

theorem Reconcile_trigger_head {W : Type} (env : Collaborators W) (w : W)
    (request : NamespacedName) :
    (triggers (Reconcile env w request).calls).head? = firstTarget env w request := by
  unfold firstTarget
  cases hclient : env.GetClient w with
  | some err => simp [Reconcile, hclient, triggers]
  | none =>
    cases hget : env.Get w request with
    | error err =>
      by_cases hnf : err.IsNotFound = true <;> simp [Reconcile, hclient, hget, hnf, triggers]
    | ok cm =>
      cases hlist : env.List w cm.Namespace with
      | error err => simp [Reconcile, hclient, hget, hlist, triggers]
      | ok shoots =>
        rw [Reconcile_triggers_listed env w request cm shoots hclient hget hlist]
        simp only [hlist]
        exact reconcileShoots_head env cm shoots w

theorem Reconcile_calls_congr {W : Type} (env : Collaborators W) (w v : W)
    (request : NamespacedName)
    (hclient : env.GetClient v = env.GetClient w)
    (hget : env.Get v request = env.Get w request)
    (hlist : ∀ ns, env.List v ns = env.List w ns)
    (hp : ∀ a b s, (env.SubmitEmptyPatch a s).1 = (env.SubmitEmptyPatch b s).1) :
    (Reconcile env v request).calls = (Reconcile env w request).calls := by
  unfold Reconcile
  rw [hclient, hget]
  cases env.GetClient w with
  | some err => rfl
  | none =>
    cases env.Get w request with
    | error err => by_cases hnf : err.IsNotFound = true <;> simp [hnf]
    | ok cm =>
      simp only [hlist]
      cases env.List w cm.Namespace with
      | error err => rfl
      | ok shoots =>
        simp only [List.cons.injEq, true_and]
        exact reconcileShoots_calls_congr env cm shoots v w hp

/-! ## Idempotence -/

/-- C6, as stated, fails: on a store with `A` at `v2` and the shoot `Y` recording
    `{A, v0}`, which reads the same before and after the first pass, the second pass
    triggers `Y` again. -/
theorem second_pass_triggers_again :
    (store cfgA [depY]).Get (Reconcile (store cfgA [depY]) 0 reqA).world reqA =
        (store cfgA [depY]).Get 0 reqA ∧
      (store cfgA [depY]).List (Reconcile (store cfgA [depY]) 0 reqA).world "garden" =
        (store cfgA [depY]).List 0 "garden" ∧
      triggers (Reconcile (store cfgA [depY]) 0 reqA).calls = [depY] ∧
      triggers (Reconcile (store cfgA [depY])
        (Reconcile (store cfgA [depY]) 0 reqA).world reqA).calls = [depY] ∧
      triggers (Reconcile (store cfgA [depY])
        (Reconcile (store cfgA [depY]) 0 reqA).world reqA).calls ≠ [] :=
  ⟨rfl, rfl, by decide, by decide, by decide⟩

/-- C6, amended: when `Reconcile` is run twice in succession on the same key and the
    store reads the same in both passes (client, config map, listed shoots with their
    recorded versions), the second pass issues zero cascade triggers exactly when the
    first pass issued zero; otherwise its first trigger goes to the same shoot as the
    first trigger of the first pass, and when the patch calls return the same errors it
    makes the same calls as the first pass. -/
theorem second_pass_same_store {W : Type} (env : Collaborators W) (w : W)
    (request : NamespacedName)
    (hclient : env.GetClient (Reconcile env w request).world = env.GetClient w)
    (hget : env.Get (Reconcile env w request).world request = env.Get w request)
    (hlist : ∀ ns, env.List (Reconcile env w request).world ns = env.List w ns) :
    (triggers (Reconcile env (Reconcile env w request).world request).calls = [] ↔
        triggers (Reconcile env w request).calls = []) ∧
      (triggers (Reconcile env (Reconcile env w request).world request).calls).head? =
        (triggers (Reconcile env w request).calls).head? ∧
      ((∀ a b s, (env.SubmitEmptyPatch a s).1 = (env.SubmitEmptyPatch b s).1) →
        (Reconcile env (Reconcile env w request).world request).calls =
          (Reconcile env w request).calls) := by
  have hhead : (triggers (Reconcile env (Reconcile env w request).world request).calls).head? =
      (triggers (Reconcile env w request).calls).head? := by
    rw [Reconcile_trigger_head, Reconcile_trigger_head]
    unfold firstTarget
    rw [hclient, hget]
    simp only [hlist]
  refine ⟨?_, hhead, ?_⟩
  · rw [← List.head?_eq_none_iff, ← List.head?_eq_none_iff, hhead]
  · intro hp
    exact Reconcile_calls_congr env w _ request hclient hget hlist hp

/-- C6, amended, instantiated at the store with the stale shoot `Y`. -/
theorem second_pass_same_store_witness :
    (triggers (Reconcile (store cfgA [depY])
        (Reconcile (store cfgA [depY]) 0 reqA).world reqA).calls).head? =
      (triggers (Reconcile (store cfgA [depY]) 0 reqA).calls).head? :=
  (second_pass_same_store (store cfgA [depY]) 0 reqA rfl rfl (fun _ => rfl)).2.1

/-! ## Failures -/

/-- C7 (retryable failures): in every pass, a fetch that fails with an error other than
    not-found, a list that fails, and a patch call made that fails with an error other
    than not-found each make `Reconcile` return that error, which is non-nil, also when
    other patch calls of the pass succeeded. -/
theorem Reconcile_retryable {W : Type} (env : Collaborators W) (w : W)
    (request : NamespacedName) (err : Error) :
    (env.GetClient w = none → env.Get w request = .error err → err.IsNotFound = false →
        (Reconcile env w request).err = some err) ∧
      (∀ configMap, env.GetClient w = none → env.Get w request = .ok configMap →
        env.List w configMap.Namespace = .error err →
        (Reconcile env w request).err = some err) ∧
      (∀ s, Call.patch s (some err) ∈ (Reconcile env w request).calls →
        err.IsNotFound = false → (Reconcile env w request).err = some err) := by
  refine ⟨?_, ?_, ?_⟩
  · intro hclient hget hnf
    simp [Reconcile, hclient, hget, hnf]
  · intro cm hclient hget hlist
    simp [Reconcile, hclient, hget, hlist]
  · intro s hc _
    exact (Reconcile_patch_failed env w request s err hc).1

/-- C7, instantiated: the patch of `X` succeeds, the patch of `Y` times out, and the pass
    returns the timeout. -/
theorem Reconcile_retryable_witness :
    Call.patch depX none ∈
        (Reconcile (storeWith cfgA [depX, depY] MetaNamespaceKeyFunc (failOn depY serverTimeout))
          0 reqA).calls ∧
      Call.patch depY (some serverTimeout) ∈
        (Reconcile (storeWith cfgA [depX, depY] MetaNamespaceKeyFunc (failOn depY serverTimeout))
          0 reqA).calls ∧
      (Reconcile (storeWith cfgA [depX, depY] MetaNamespaceKeyFunc (failOn depY serverTimeout))
        0 reqA).err = some serverTimeout :=
  ⟨by decide, by decide,
    (Reconcile_retryable (storeWith cfgA [depX, depY] MetaNamespaceKeyFunc
      (failOn depY serverTimeout)) 0 reqA serverTimeout).2.2 depY (by decide) rfl⟩

/-- C8, as stated, fails: with the stale shoots `Y` and `X` listed and the patch of `Y`
    failing with a not-found error (no other call fails), `Reconcile` returns that error
    instead of nil, and the stale shoot `X` after it is not triggered. -/
theorem patch_not_found_aborts :
    isStale cfgA depX = true ∧
      (Reconcile (storeWith cfgA [depY, depX] MetaNamespaceKeyFunc (failOn depY shootGone))
        0 reqA).err = some shootGone ∧
      shootGone.IsNotFound = true ∧
      triggers (Reconcile (storeWith cfgA [depY, depX] MetaNamespaceKeyFunc
        (failOn depY shootGone)) 0 reqA).calls = [depY] ∧
      depX ∉ triggers (Reconcile (storeWith cfgA [depY, depX] MetaNamespaceKeyFunc
        (failOn depY shootGone)) 0 reqA).calls := by
  decide

/-- C8, amended: in every pass in which the empty-patch call for a stale shoot fails with
    any error, a not-found error included, `Reconcile` returns that error and the failed
    call is the last call of the pass: the remaining shoots of the list are neither
    evaluated nor triggered. -/
theorem Reconcile_patch_error_returned {W : Type} (env : Collaborators W) (w : W)
    (request : NamespacedName) (s : Shoot) (err : Error)
    (hcall : Call.patch s (some err) ∈ (Reconcile env w request).calls) :
    (Reconcile env w request).err = some err ∧
      (Reconcile env w request).calls.getLast? = some (Call.patch s (some err)) :=
  Reconcile_patch_failed env w request s err hcall

/-- C8, amended, instantiated at a patch of `Y` that fails with not-found. -/
theorem Reconcile_patch_error_returned_witness :
    (Reconcile (storeWith cfgA [depY, depX] MetaNamespaceKeyFunc (failOn depY shootGone))
        0 reqA).err = some shootGone ∧
      (Reconcile (storeWith cfgA [depY, depX] MetaNamespaceKeyFunc (failOn depY shootGone))
        0 reqA).calls.getLast? = some (Call.patch depY (some shootGone)) :=
  Reconcile_patch_error_returned
    (storeWith cfgA [depY, depX] MetaNamespaceKeyFunc (failOn depY shootGone)) 0 reqA depY
    shootGone (by decide)

/-- C9 (success implies full coverage): with `cache.MetaNamespaceKeyFunc` as the key
    function, in every pass that obtained the client and fetched the config map, if
    `Reconcile` returns nil then the shoots were listed, a key was derived for each of
    them (the branch that logs and continues was not taken), and every listed shoot
    whose reference names the fetched config map and whose recorded version differs
    from the current one has been sent a cascade trigger that returned nil. -/
theorem Reconcile_success_covers {W : Type} (env : Collaborators W) (w : W)
    (request : NamespacedName) (configMap : ConfigMap)
    (hkeyFunc : env.MetaNamespaceKeyFunc = MetaNamespaceKeyFunc)
    (hclient : env.GetClient w = none)
    (hget : env.Get w request = .ok configMap)
    (hsuccess : (Reconcile env w request).err = none) :
    ∃ shoots, env.List w configMap.Namespace = .ok shoots ∧
      (∀ s ∈ shoots, ∃ key, env.MetaNamespaceKeyFunc (.shoot s) = .ok key) ∧
      ∀ s ∈ shoots, ∀ ref, configMapRef s = some ref → ref.Name = configMap.Name →
        ref.ResourceVersion ≠ configMap.ResourceVersion →
        Call.patch s none ∈ (Reconcile env w request).calls := by
  have hkeys : ∀ s, ∃ key, env.MetaNamespaceKeyFunc (.shoot s) = .ok key := by
    intro s
    rw [hkeyFunc]
    exact MetaNamespaceKeyFunc_shoot s
  cases hlist : env.List w configMap.Namespace with
  | error err => simp [Reconcile, hclient, hget, hlist] at hsuccess
  | ok shoots =>
    refine ⟨shoots, rfl, fun s _ => hkeys s, ?_⟩
    intro s hs ref href hname hversion
    rw [Reconcile_listed env w request configMap shoots hclient hget hlist] at hsuccess ⊢
    simp only at hsuccess
    have hcalls := reconcileShoots_success env configMap shoots w hsuccess
    have hstale : isStale configMap s = true :=
      (isStale_iff configMap s).2 ⟨ref, href, hname, hversion⟩
    obtain ⟨key, hkey⟩ := hkeys s
    have htarget : s ∈ patchTargets env configMap shoots := by
      simp [patchTargets, hs, hstale, keyDerived, hkey]
    simp only [hcalls, List.mem_cons, reduceCtorEq, false_or, List.mem_map]
    exact ⟨s, htarget, rfl⟩

/-- C9, instantiated at a list with the current shoot `U` and the stale shoot `Y`: the
    pass returns nil and `Y` was patched. -/
theorem Reconcile_success_covers_witness :
    (Reconcile (store cfgA [depU, depY]) 0 reqA).err = none ∧
      Call.patch depY none ∈ (Reconcile (store cfgA [depU, depY]) 0 reqA).calls ∧
      ∃ shoots, (store cfgA [depU, depY]).List 0 cfgA.Namespace = .ok shoots ∧
        (∀ s ∈ shoots, ∃ key,
          (store cfgA [depU, depY]).MetaNamespaceKeyFunc (.shoot s) = .ok key) ∧
        ∀ s ∈ shoots, ∀ ref, configMapRef s = some ref → ref.Name = cfgA.Name →
          ref.ResourceVersion ≠ cfgA.ResourceVersion →
          Call.patch s none ∈ (Reconcile (store cfgA [depU, depY]) 0 reqA).calls :=
  ⟨by decide, by decide,
    Reconcile_success_covers (store cfgA [depU, depY]) 0 reqA cfgA rfl rfl rfl (by decide)⟩

/-! ## Enqueueing -/

/-- C10 (change filter): for an object whose key is derived, `configMapAdd` calls `Add`
    once, with that key, and so does `configMapUpdate` with the key of the new object
    when the `Data` of the old and the new config map are not deeply equal; when no key
    is derived for the object, both leave the controller and its work queue unchanged. -/
theorem changeFilter_enqueue {Q : Type} (keyFunc : Object → Except Error String)
    (c : Controller Q) (obj : Object) (previous current : ConfigMap) :
    (∀ key, keyFunc obj = .ok key →
        configMapAdd keyFunc c obj = ⟨c.Add c.configMapQueue key, c.Add⟩) ∧
      (∀ key, DeepEqual previous.Data current.Data = false →
        keyFunc (.configMap current) = .ok key →
        configMapUpdate keyFunc c (.configMap previous) (.configMap current) =
          some ⟨c.Add c.configMapQueue key, c.Add⟩) ∧
      (∀ err, keyFunc obj = .error err → configMapAdd keyFunc c obj = c) ∧
      (∀ err, keyFunc (.configMap current) = .error err →
        configMapUpdate keyFunc c (.configMap previous) (.configMap current) = some c) := by
  refine ⟨?_, ?_, ?_, ?_⟩
  · intro key hk
    simp [configMapAdd, hk]
  · intro key hd hk
    simp [configMapUpdate, configMapAdd, hd, hk]
  · intro err hk
    simp [configMapAdd, hk]
  · intro err hk
    by_cases hd : DeepEqual previous.Data current.Data = true
    · simp [configMapUpdate, hd]
    · simp [configMapUpdate, configMapAdd, hd, hk]

/-- C10, instantiated: an edit of the content of `garden/A` puts the one key `garden/A`
    on the queue. -/
theorem changeFilter_enqueue_witness :
    DeepEqual cfgA.Data cfgAEdited.Data = false ∧
      configMapUpdate MetaNamespaceKeyFunc recordingController (.configMap cfgA)
        (.configMap cfgAEdited) = some ⟨["garden/A"], recordingController.Add⟩ :=
  ⟨by decide,
    (changeFilter_enqueue MetaNamespaceKeyFunc recordingController (.configMap cfgAEdited) cfgA
      cfgAEdited).2.1 "garden/A" (by decide) rfl⟩

end ConfigMapControl
